import Mathlib

/-!
Verification development for the quill reconciliation engine.

The definitions below are a shallow embedding of the Rust sources:

* `NodeSpan` with `count` / `flatten` / `despawnRecursive` / `beq`
  embeds `src/node_span.rs`;
* `World` and its entity/component operations embed the slice of the
  `bevy` store that the engine touches (entities are `Nat` ids, an
  entity record carries exactly the component slots used by the code:
  `Text`, a generic component `comp`, a bundle slot, `TrackedResources`,
  `ViewHandle`, `ViewRoot`, an `Added<ViewRoot>` change-detection flag
  and a parent link).  `World.entity_mut` on a missing entity panics in
  bevy, so partial operations return `Except String`.
* `stringBuild` / `stringRaze` embed `impl View for String` from
  `src/view.rs`; `unitBuild` embeds `impl View for ()`;
  `fnPresenterRaze` embeds the `todo!()` body of
  `impl View for fn(Cx) -> A :: raze`;
* `bindBuild` embeds `Bind::build` from `src/view.rs`, with the
  type-erased `Box<dyn AnyViewState>` inner holder abstracted to a type
  parameter `H` and its `build` / `nodes` methods passed as functions;
* `ViewStateS` embeds `ViewState` from `src/view_handle.rs`;
* `ViewInsert.insertComponent` / `ViewInsert.build` embed
  `src/view/view_insert.rs`; `ViewInsertBundle.insertComponent` /
  `ViewInsertBundle.build` embed `src/view/view_insert_bundle.rs`;
* `phase1` / `phase2` / `phase3` / `updateViews` embed the three-phase
  driver `update_views` from `src/plugin.rs`.  The `ViewRoot` component
  (its defining file `view_root.rs` is not among the sources) is
  modelled from the spec and from its uses in `update_views`: a node
  attribute holding an optional type-erased subtree state holder that
  is taken in phase 2 and reinserted in phase 3.

Hierarchical despawn descent is not modelled: the spans razed by the
claims under study consist of leaf text nodes without children, so
`despawn_recursive` on them removes exactly the listed entities.
-/

namespace Quill

/-- Entity identifiers of the external graph store (bevy `Entity`). -/
abbrev EntityId := Nat

/-- Output of a rendered node: nothing, a single node, or a fragment
(`NodeSpan` from `src/node_span.rs`). -/
inductive NodeSpan where
  | Empty : NodeSpan
  | Node : EntityId → NodeSpan
  | Fragment : List NodeSpan → NodeSpan

mutual

/-- `NodeSpan::count`: the number of actual entities in the template output. -/
def NodeSpan.count : NodeSpan → Nat
  | .Empty => 0
  | .Node _ => 1
  | .Fragment nodes => NodeSpan.countList nodes

/-- Sum of the counts of a fragment's children
(`nodes.iter().map(|node| node.count()).sum()`). -/
def NodeSpan.countList : List NodeSpan → Nat
  | [] => 0
  | n :: rest => n.count + NodeSpan.countList rest

end

mutual

/-- `NodeSpan::flatten`: appends the leaf entity ids to the output vector. -/
def NodeSpan.flatten : NodeSpan → List EntityId → List EntityId
  | .Empty, out => out
  | .Node entity, out => out ++ [entity]
  | .Fragment nodes, out => NodeSpan.flattenList nodes out

/-- `nodes.iter().for_each(|node| node.flatten(out))`. -/
def NodeSpan.flattenList : List NodeSpan → List EntityId → List EntityId
  | [], out => out
  | n :: rest, out => NodeSpan.flattenList rest (n.flatten out)

end

mutual

/-- Paired induction over `NodeSpan` and lists of `NodeSpan`. -/
def NodeSpan.indPair (P : NodeSpan → Prop) (Q : List NodeSpan → Prop)
    (hempty : P .Empty) (hnode : ∀ e, P (.Node e))
    (hfrag : ∀ ns, Q ns → P (.Fragment ns))
    (hnil : Q []) (hcons : ∀ n ns, P n → Q ns → Q (n :: ns)) :
    (s : NodeSpan) → P s
  | .Empty => hempty
  | .Node e => hnode e
  | .Fragment ns =>
      hfrag ns (NodeSpan.indPairList P Q hempty hnode hfrag hnil hcons ns)

/-- List part of the paired induction over `NodeSpan`. -/
def NodeSpan.indPairList (P : NodeSpan → Prop) (Q : List NodeSpan → Prop)
    (hempty : P .Empty) (hnode : ∀ e, P (.Node e))
    (hfrag : ∀ ns, Q ns → P (.Fragment ns))
    (hnil : Q []) (hcons : ∀ n ns, P n → Q ns → Q (n :: ns)) :
    (l : List NodeSpan) → Q l
  | [] => hnil
  | n :: ns =>
      hcons n ns (NodeSpan.indPair P Q hempty hnode hfrag hnil hcons n)
        (NodeSpan.indPairList P Q hempty hnode hfrag hnil hcons ns)

end

/-- The `Text` component: its list of section values
(section style is irrelevant to the claims and not modelled). -/
structure TextC where
  sections : List String

/-- The `ViewHandle` component (`src/view_handle.rs`): an optional
type-erased subtree state holder, abstracted to the type parameter `H`. -/
structure ViewHandleC (H : Type) where
  inner : Option H

/-- Modelled from the spec: the `ViewRoot` component (its file
`view_root.rs` is not among the sources).  Per §4.4 and its uses in
`update_views` it is the node attribute holding the root subtree state
holder; phase 2 takes `handle` (leaving `None`) and phase 3 puts it back. -/
structure ViewRootC (H : Type) where
  handle : Option H

/-- The component slots of one store entity that the engine touches.
`added` models the `Added<ViewRoot>` change-detection filter. -/
structure EntityRec (H : Type) where
  text : Option TextC := none
  comp : Option Nat := none
  bundle : Option Nat := none
  tracked : Option (List Nat) := none
  viewHandle : Option (ViewHandleC H) := none
  viewRoot : Option (ViewRootC H) := none
  added : Bool := false
  parent : Option EntityId := none

/-- The external graph store: an id allocator, the live entities with
their components, and the set of resource type-ids for which
`World::is_resource_changed` reports true this cycle. -/
structure World (H : Type) where
  nextId : EntityId
  entities : List (EntityId × EntityRec H)
  changed : List Nat

/-- Association-list lookup of a live entity. -/
def lookupEnt {H : Type} : List (EntityId × EntityRec H) → EntityId → Option (EntityRec H)
  | [], _ => none
  | (k, r) :: rest, e => if k = e then some r else lookupEnt rest e

/-- `World::get` / `World::entity`: the record of entity `e`, if alive. -/
def getEnt {H : Type} (w : World H) (e : EntityId) : Option (EntityRec H) :=
  lookupEnt w.entities e

/-- Replace the record stored for a live entity id. -/
def setList {H : Type} : List (EntityId × EntityRec H) → EntityId →
    EntityRec H → List (EntityId × EntityRec H)
  | [], _, _ => []
  | (k, rk) :: rest, e, r =>
      if k = e then (e, r) :: setList rest e r else (k, rk) :: setList rest e r

/-- Component mutation through `World::get_mut` / `EntityWorldMut`. -/
def setEnt {H : Type} (w : World H) (e : EntityId) (r : EntityRec H) : World H :=
  { w with entities := setList w.entities e r }

/-- `World::spawn`: allocate a fresh id carrying the given components. -/
def spawn {H : Type} (w : World H) (r : EntityRec H) : World H :=
  { w with nextId := w.nextId + 1, entities := (w.nextId, r) :: w.entities }

/-- `EntityWorldMut::despawn_recursive` at the single-entity level:
remove the entity from the store. -/
def despawn {H : Type} (w : World H) (e : EntityId) : World H :=
  { w with entities := w.entities.filter (fun p => p.1 ≠ e) }

/-- The live entity ids of a world. -/
def keys {H : Type} (w : World H) : List EntityId :=
  w.entities.map Prod.fst

/-- Store invariant: every allocated id is below the allocator cursor. -/
def WorldWF {H : Type} (w : World H) : Prop :=
  ∀ p ∈ w.entities, p.1 < w.nextId

mutual

/-- `NodeSpan::despawn_recursive`: destroy every entity held.  Bevy's
`world.entity_mut(e)` panics when `e` is not alive, hence `Except`. -/
def NodeSpan.despawnRecursive : NodeSpan → {H : Type} → World H → Except String (World H)
  | .Empty, _, w => .ok w
  | .Node entity, _, w =>
      match getEnt w entity with
      | none => .error "entity_mut: entity does not exist"
      | some _ => .ok (despawn w entity)
  | .Fragment nodes, _, w => NodeSpan.despawnRecursiveList nodes w

/-- `nodes.iter().for_each(|node| node.despawn_recursive(world))`. -/
def NodeSpan.despawnRecursiveList : List NodeSpan → {H : Type} → World H → Except String (World H)
  | [], _, w => .ok w
  | n :: rest, _, w =>
      match n.despawnRecursive w with
      | .error m => .error m
      | .ok w' => NodeSpan.despawnRecursiveList rest w'

end

/-- `impl View for () :: build`: renders nothing. -/
def unitBuild {H : Type} (w : World H) (_prev : NodeSpan) : World H × NodeSpan :=
  (w, .Empty)

/-- A fresh text entity as spawned by `String::build`
(`TextBundle { text: Text::from_section(self, ..), .. }`). -/
def spawnText {H : Type} (w : World H) (s : String) : World H :=
  spawn w { text := some ⟨[s]⟩ }

/-- The despawn-and-respawn arm of `String::build` (the code after the
`if let` falls through). -/
def stringBuildFallback {H : Type} (s : String) (w : World H) (prev : NodeSpan) :
    Except String (World H × NodeSpan) :=
  match prev.despawnRecursive w with
  | .error m => .error m
  | .ok w1 => .ok (spawnText w1 s, .Node w1.nextId)

/-- `impl View for String :: build`: if the previous shape is a single
node still carrying a `Text` component, rewrite its sections in place
and keep the node; otherwise despawn the previous shape and spawn a new
text node. -/
def stringBuild {H : Type} (s : String) (w : World H) (prev : NodeSpan) :
    Except String (World H × NodeSpan) :=
  match prev with
  | .Node textEntity =>
      match getEnt w textEntity with
      | none => .error "entity_mut: entity does not exist"
      | some r =>
          match r.text with
          | some _ =>
              .ok (setEnt w textEntity { r with text := some ⟨[s]⟩ }, .Node textEntity)
          | none => stringBuildFallback s w prev
  | _ => stringBuildFallback s w prev

/-- `impl View for String :: raze`: despawn the previous shape. -/
def stringRaze {H : Type} (w : World H) (prev : NodeSpan) : Except String (World H) :=
  prev.despawnRecursive w

/-- `impl<A> View for fn(cx: Cx) -> A :: raze`: the body is `todo!()`,
which unconditionally panics. -/
def fnPresenterRaze {H : Type} (_w : World H) (_state : Option EntityId)
    (_prev : NodeSpan) : Except String (World H) :=
  .error "not yet implemented"

/-- `ViewState` from `src/view_handle.rs`: presenter reference, props,
the view produced by the last build, externalized view state, and the
cached output nodes.  The presenter is modelled as a function from its
props to the produced view; the `Cx` store threading is irrelevant to
the state-shape claims. -/
structure ViewStateS (V Props State : Type) where
  presenter : Props → V
  props : Props
  view : Option V
  state : State
  nodes : NodeSpan

/-- `ViewState::new`: cached nodes start `Empty`, no cached view, and a
default-constructed state. -/
def ViewStateS.new {V Props State : Type} [Inhabited State]
    (presenter : Props → V) (props : Props) : ViewStateS V Props State :=
  { presenter := presenter, nodes := .Empty, props := props, view := none,
    state := default }

/-- `AnyViewState::count` for `ViewState`: `self.nodes.count()`. -/
def ViewStateS.count {V Props State : Type} (vs : ViewStateS V Props State) : Nat :=
  vs.nodes.count

/-- `AnyViewState::nodes` for `ViewState`: a clone of the cached nodes;
the `prev` argument is ignored. -/
def ViewStateS.nodesOf {V Props State : Type} (vs : ViewStateS V Props State)
    (_prev : NodeSpan) : NodeSpan :=
  vs.nodes

/-- The generic component slot read by `ViewInsert` (`em.get::<C>()`). -/
def getComp {H : Type} (w : World H) (e : EntityId) : Option Nat :=
  match getEnt w e with
  | some r => r.comp
  | none => none

/-- The `ViewRoot` component of a node, as seen by `world.get_mut::<ViewRoot>(e)`
(`none` when the entity is dead or lacks the component). -/
def getViewRoot {H : Type} (w : World H) (e : EntityId) : Option (ViewRootC H) :=
  match getEnt w e with
  | some r => r.viewRoot
  | none => none

mutual

/-- `ViewInsert::insert_component` (`src/view/view_insert.rs`): insert
the component on every produced node, skipping nodes that already carry
one, recursing through fragments. -/
def ViewInsert.insertComponent {H : Type} (c : Nat) :
    NodeSpan → World H → Except String (World H)
  | .Empty, w => .ok w
  | .Node entity, w =>
      match getEnt w entity with
      | none => .error "entity_mut: entity does not exist"
      | some r =>
          match r.comp with
          | some _ => .ok w
          | none => .ok (setEnt w entity { r with comp := some c })
  | .Fragment nodes, w => ViewInsert.insertComponentList c nodes w

/-- The fragment recursion of `ViewInsert::insert_component`. -/
def ViewInsert.insertComponentList {H : Type} (c : Nat) :
    List NodeSpan → World H → Except String (World H)
  | [], w => .ok w
  | n :: rest, w =>
      match ViewInsert.insertComponent c n w with
      | .error m => .error m
      | .ok w' => ViewInsert.insertComponentList c rest w'

end

/-- `ViewInsert::build`: build the inner view, then insert the component
over the resulting shape; the shape itself is returned unchanged.  The
inner view's build is passed as a function. -/
def ViewInsert.build {H : Type}
    (innerBuild : World H → Except String (World H × NodeSpan)) (c : Nat)
    (w : World H) : Except String (World H × NodeSpan) :=
  match innerBuild w with
  | .error m => .error m
  | .ok (w1, nodes) =>
      match ViewInsert.insertComponent c nodes w1 with
      | .error m => .error m
      | .ok w2 => .ok (w2, nodes)

/-- `ViewInsertBundle::insert_component` (`src/view/view_insert_bundle.rs`):
the bundle lives in a `Cell<Option<B>>`; a node consumes it
(`take().unwrap()` panics when it is gone), and a fragment is a
programming error (`panic!("Can only insert into a singular node")`). -/
def ViewInsertBundle.insertComponent {H : Type} (bundle : Option Nat) :
    NodeSpan → World H → Except String (World H × Option Nat)
  | .Empty, w => .ok (w, bundle)
  | .Node entity, w =>
      match getEnt w entity with
      | none => .error "entity_mut: entity does not exist"
      | some r =>
          match bundle with
          | none => .error "called Option::unwrap on a None value"
          | some b => .ok (setEnt w entity { r with bundle := some b }, none)
  | .Fragment _, _w => .error "Can only insert into a singular node"

/-- `ViewInsertBundle::build`: build the inner view, compute its nodes,
then insert the bundle over that shape.  Inner view passed as functions. -/
def ViewInsertBundle.build {H σ : Type} (innerBuild : World H → World H × σ)
    (innerNodes : World H → σ → NodeSpan) (bundle : Option Nat) (w : World H) :
    Except String (World H × σ × NodeSpan) :=
  let ws := innerBuild w
  let ns := innerNodes ws.1 ws.2
  match ViewInsertBundle.insertComponent bundle ns ws.1 with
  | .error m => .error m
  | .ok res => .ok (res.1, ws.2, ns)

/-- `Bind::build` from `src/view.rs`.  The boxed `AnyViewState` holder is
abstracted: `buildH` is its `build` method (it may mutate the store
arbitrarily and returns the mutated holder) and `nodesH` its `nodes`
method; `newHandle` is the holder made by
`ViewHandle::new(self.presenter, self.props.clone())`.  Returns the
mutated store, the state and the produced shape. -/
def bindBuild {H : Type} (buildH : H → World H → EntityId → World H × H)
    (nodesH : H → NodeSpan → NodeSpan) (newHandle : H)
    (parentEntity : EntityId) (state : Option EntityId) (prev : NodeSpan)
    (w : World H) : Except String (World H × Option EntityId × NodeSpan) :=
  let resolved : World H × Option EntityId × EntityId :=
    match state with
    | some entity => (w, some entity, entity)
    | none =>
        (spawn w { tracked := some [], viewHandle := some ⟨some newHandle⟩,
                   parent := some parentEntity }, some w.nextId, w.nextId)
  let w0 := resolved.1
  let state0 := resolved.2.1
  let entity := resolved.2.2
  match getEnt w0 entity with
  | none => .error "entity_mut: entity does not exist"
  | some r =>
      match r.viewHandle with
      | none => .ok (w0, state0, .Empty)
      | some vh =>
          match vh.inner with
          | none => .error "ViewState::handle should be present at this point"
          | some inner =>
              let w1 := setEnt w0 entity { r with viewHandle := some ⟨none⟩ }
              let bres := buildH inner w1 entity
              let ns := nodesH bres.2 prev
              match getEnt bres.1 entity with
              | none => .error "entity_mut: entity does not exist"
              | some r2 =>
                  match r2.viewHandle with
                  | none => .ok (bres.1, state0, .Empty)
                  | some _ =>
                      .ok (setEnt bres.1 entity
                            { r2 with viewHandle := some ⟨some bres.2⟩ },
                        state0, ns)

/-- `AnyRes::<T>::is_changed`: `world.is_resource_changed::<T>()`,
with resource types represented by ids. -/
def isChanged {H : Type} (w : World H) (res : Nat) : Bool :=
  w.changed.contains res

/-- Phase 1 of `update_views`: entities whose `TrackedResources` contain
some changed probe, followed by the entities matching `Added<ViewRoot>`
(freshly spawned views are force-built). -/
def phase1 {H : Type} (w : World H) : List EntityId :=
  (w.entities.filterMap fun p =>
    match p.2.tracked with
    | some data => if data.any (fun x => isChanged w x) then some p.1 else none
    | none => none)
  ++ (w.entities.filterMap fun p => if p.2.added then some p.1 else none)

/-- Phase 2 of `update_views`: for each selected entity that still has a
`ViewRoot`, take the handle out of the store (leaving `None`) and
collect the `(entity, handle)` pairs. -/
def phase2 {H : Type} : List EntityId → World H → World H × List (EntityId × Option H)
  | [], w => (w, [])
  | e :: rest, w =>
      match getEnt w e with
      | some r =>
          match r.viewRoot with
          | some vr =>
              let res := phase2 rest (setEnt w e { r with viewRoot := some ⟨none⟩ })
              (res.1, (e, vr.handle) :: res.2)
          | none => phase2 rest w
      | none => phase2 rest w

/-- Phase 3 of `update_views`: for each taken handle, call its build with
the store and the owning entity, then put the handle back if the entity
still has a `ViewRoot`; if not, the handle is dropped.  Also returns the
entities on which a build was invoked. -/
def phase3 {H : Type} (buildH : H → World H → EntityId → World H × H) :
    List (EntityId × Option H) → World H → World H × List EntityId
  | [], w => (w, [])
  | (_, none) :: rest, w => phase3 buildH rest w
  | (e, some h) :: rest, w =>
      let bres := buildH h w e
      let w2 :=
        match getEnt bres.1 e with
        | some r =>
            match r.viewRoot with
            | some _ => setEnt bres.1 e { r with viewRoot := some ⟨some bres.2⟩ }
            | none => bres.1
        | none => bres.1
      let res := phase3 buildH rest w2
      (res.1, e :: res.2)

/-- `update_views` from `src/plugin.rs`: the three-phase cycle. -/
def updateViews {H : Type} (buildH : H → World H → EntityId → World H × H)
    (w : World H) : World H × List EntityId :=
  let p2 := phase2 (phase1 w) w
  phase3 buildH p2.2 p2.1

theorem lookupEnt_eq_none {H : Type} :
    ∀ (l : List (EntityId × EntityRec H)) (e : EntityId),
      lookupEnt l e = none ↔ e ∉ l.map Prod.fst := by
  intro l e
  induction l with
  | nil => simp [lookupEnt]
  | cons p rest ih =>
    obtain ⟨k, r⟩ := p
    by_cases hk : k = e
    · subst hk; simp [lookupEnt]
    · rw [show lookupEnt ((k, r) :: rest) e = lookupEnt rest e by
        simp [lookupEnt, hk]]
      simp only [List.map_cons, List.mem_cons, ih]
      constructor
      · intro h hmem
        rcases hmem with hmem | hmem
        · exact hk hmem.symm
        · exact h hmem
      · intro h hmem
        exact h (Or.inr hmem)

theorem lookupEnt_isSome_mem {H : Type} :
    ∀ (l : List (EntityId × EntityRec H)) (e : EntityId) (r : EntityRec H),
      lookupEnt l e = some r → (e, r) ∈ l := by
  intro l
  induction l with
  | nil => intro e r h; simp [lookupEnt] at h
  | cons p rest ih =>
    intro e r h
    obtain ⟨k, r0⟩ := p
    by_cases hk : k = e
    · subst hk
      simp [lookupEnt] at h
      subst h; exact List.mem_cons_self _ _
    · simp [lookupEnt, hk] at h
      exact List.mem_cons_of_mem _ (ih e r h)

theorem lookupEnt_set_self {H : Type} :
    ∀ (l : List (EntityId × EntityRec H)) (e : EntityId) (r0 r : EntityRec H),
      lookupEnt l e = some r0 → lookupEnt (setList l e r) e = some r := by
  intro l
  induction l with
  | nil => intro e r0 r h; simp [lookupEnt] at h
  | cons p rest ih =>
    intro e r0 r h
    obtain ⟨k, rk⟩ := p
    by_cases hk : k = e
    · subst hk; simp [setList, lookupEnt]
    · rw [show lookupEnt ((k, rk) :: rest) e = lookupEnt rest e by
        simp [lookupEnt, hk]] at h
      rw [show setList ((k, rk) :: rest) e r = (k, rk) :: setList rest e r by
        simp [setList, hk]]
      rw [show lookupEnt ((k, rk) :: setList rest e r) e
            = lookupEnt (setList rest e r) e by simp [lookupEnt, hk]]
      exact ih e r0 r h

theorem lookupEnt_set_other {H : Type} :
    ∀ (l : List (EntityId × EntityRec H)) (e e' : EntityId) (r : EntityRec H),
      e' ≠ e → lookupEnt (setList l e r) e' = lookupEnt l e' := by
  intro l e e' r hne
  induction l with
  | nil => simp [setList, lookupEnt]
  | cons p rest ih =>
    obtain ⟨k, rk⟩ := p
    by_cases hk : k = e
    · rw [show setList ((k, rk) :: rest) e r = (e, r) :: setList rest e r by
        simp [setList, hk]]
      have hne' : ¬ e = e' := fun hh => hne hh.symm
      rw [show lookupEnt ((e, r) :: setList rest e r) e'
            = lookupEnt (setList rest e r) e' by
        simp [lookupEnt, hne']]
      rw [show lookupEnt ((k, rk) :: rest) e' = lookupEnt rest e' by
        simp [lookupEnt, hk, hne']]
      exact ih
    · rw [show setList ((k, rk) :: rest) e r = (k, rk) :: setList rest e r by
        simp [setList, hk]]
      by_cases hk' : k = e'
      · subst hk'; simp [lookupEnt]
      · rw [show lookupEnt ((k, rk) :: setList rest e r) e'
              = lookupEnt (setList rest e r) e' by simp [lookupEnt, hk']]
        rw [show lookupEnt ((k, rk) :: rest) e' = lookupEnt rest e' by
          simp [lookupEnt, hk']]
        exact ih

theorem setList_map_fst {H : Type} :
    ∀ (l : List (EntityId × EntityRec H)) (e : EntityId) (r : EntityRec H),
      (setList l e r).map Prod.fst = l.map Prod.fst := by
  intro l e r
  induction l with
  | nil => simp [setList]
  | cons p rest ih =>
    obtain ⟨k, rk⟩ := p
    by_cases hk : k = e
    · rw [show setList ((k, rk) :: rest) e r = (e, r) :: setList rest e r by
        simp [setList, hk]]
      simp only [List.map_cons, ih, hk]
    · rw [show setList ((k, rk) :: rest) e r = (k, rk) :: setList rest e r by
        simp [setList, hk]]
      simp only [List.map_cons, ih]

theorem keys_setEnt {H : Type} (w : World H) (e : EntityId) (r : EntityRec H) :
    keys (setEnt w e r) = keys w := by
  simp [keys, setEnt, setList_map_fst]

theorem nextId_setEnt {H : Type} (w : World H) (e : EntityId) (r : EntityRec H) :
    (setEnt w e r).nextId = w.nextId := rfl

theorem getEnt_setEnt_self {H : Type} (w : World H) (e : EntityId)
    (r0 r : EntityRec H) (h : getEnt w e = some r0) :
    getEnt (setEnt w e r) e = some r := by
  exact lookupEnt_set_self w.entities e r0 r h

theorem getEnt_setEnt_other {H : Type} (w : World H) (e e' : EntityId)
    (r : EntityRec H) (h : e' ≠ e) :
    getEnt (setEnt w e r) e' = getEnt w e' := by
  exact lookupEnt_set_other w.entities e e' r h

theorem lookupEnt_filter_self {H : Type} :
    ∀ (l : List (EntityId × EntityRec H)) (e : EntityId),
      lookupEnt (l.filter (fun p => p.1 ≠ e)) e = none := by
  intro l e
  rw [lookupEnt_eq_none]
  intro hmem
  simp only [List.mem_map] at hmem
  obtain ⟨p, hp, hfst⟩ := hmem
  rw [List.mem_filter] at hp
  exact absurd hfst (by simpa using hp.2)

theorem lookupEnt_filter_other {H : Type} :
    ∀ (l : List (EntityId × EntityRec H)) (e e' : EntityId), e' ≠ e →
      lookupEnt (l.filter (fun p => p.1 ≠ e)) e' = lookupEnt l e' := by
  intro l e e' h
  induction l with
  | nil => simp [lookupEnt]
  | cons p rest ih =>
    obtain ⟨k, rk⟩ := p
    by_cases hk : k = e
    · rw [show ((k, rk) :: rest).filter (fun p => p.1 ≠ e)
            = rest.filter (fun p => p.1 ≠ e) by simp [hk]]
      have hne' : ¬ e = e' := fun hh => h hh.symm
      rw [show lookupEnt ((k, rk) :: rest) e' = lookupEnt rest e' by
        simp [lookupEnt, hk, hne']]
      exact ih
    · rw [show ((k, rk) :: rest).filter (fun p => p.1 ≠ e)
            = (k, rk) :: rest.filter (fun p => p.1 ≠ e) by simp [hk]]
      by_cases hk' : k = e'
      · subst hk'; simp [lookupEnt]
      · rw [show lookupEnt ((k, rk) :: rest.filter (fun p => p.1 ≠ e)) e'
              = lookupEnt (rest.filter (fun p => p.1 ≠ e)) e' by
            simp [lookupEnt, hk']]
        rw [show lookupEnt ((k, rk) :: rest) e' = lookupEnt rest e' by
          simp [lookupEnt, hk']]
        exact ih

theorem getEnt_despawn_self {H : Type} (w : World H) (e : EntityId) :
    getEnt (despawn w e) e = none :=
  lookupEnt_filter_self w.entities e

theorem getEnt_despawn_other {H : Type} (w : World H) (e e' : EntityId)
    (h : e' ≠ e) : getEnt (despawn w e) e' = getEnt w e' :=
  lookupEnt_filter_other w.entities e e' h

theorem keys_despawn_subset {H : Type} (w : World H) (e : EntityId) :
    ∀ x ∈ keys (despawn w e), x ∈ keys w := by
  intro x hx
  simp only [keys, despawn, List.mem_map] at hx ⊢
  obtain ⟨p, hp, hfst⟩ := hx
  exact ⟨p, (List.mem_filter.mp hp).1, hfst⟩

theorem nextId_despawn {H : Type} (w : World H) (e : EntityId) :
    (despawn w e).nextId = w.nextId := rfl

theorem despawnRecursive_nextId {H : Type} :
    (∀ (s : NodeSpan) (w w' : World H),
      s.despawnRecursive w = .ok w' → w'.nextId = w.nextId ∧
        (∀ x ∈ keys w', x ∈ keys w)) := by
  have main :=
    NodeSpan.indPair
      (fun s => ∀ (w w' : World H), s.despawnRecursive w = .ok w' →
        w'.nextId = w.nextId ∧ (∀ x ∈ keys w', x ∈ keys w))
      (fun l => ∀ (w w' : World H), NodeSpan.despawnRecursiveList l w = .ok w' →
        w'.nextId = w.nextId ∧ (∀ x ∈ keys w', x ∈ keys w))
      (by
        intro w w' h
        simp [NodeSpan.despawnRecursive] at h
        subst h; exact ⟨rfl, fun x hx => hx⟩)
      (by
        intro e w w' h
        simp only [NodeSpan.despawnRecursive] at h
        cases hg : getEnt w e with
        | none => rw [hg] at h; exact absurd h (by simp)
        | some r =>
          rw [hg] at h
          simp only [Except.ok.injEq] at h
          subst h
          exact ⟨rfl, keys_despawn_subset w e⟩)
      (by
        intro ns ih w w' h
        simp only [NodeSpan.despawnRecursive] at h
        exact ih w w' h)
      (by
        intro w w' h
        simp [NodeSpan.despawnRecursiveList] at h
        subst h; exact ⟨rfl, fun x hx => hx⟩)
      (by
        intro n ns ihn ihns w w' h
        simp only [NodeSpan.despawnRecursiveList] at h
        cases hd : n.despawnRecursive w with
        | error m => rw [hd] at h; exact absurd h (by simp)
        | ok w1 =>
          rw [hd] at h
          obtain ⟨h1, h1k⟩ := ihn w w1 hd
          obtain ⟨h2, h2k⟩ := ihns w1 w' h
          exact ⟨h2.trans h1, fun x hx => h1k x (h2k x hx)⟩)
  exact main

theorem despawnRecursiveList_nextId {H : Type} :
    ∀ (l : List NodeSpan) (w w' : World H),
      NodeSpan.despawnRecursiveList l w = .ok w' →
        w'.nextId = w.nextId ∧ (∀ x ∈ keys w', x ∈ keys w) := by
  intro l w w' h
  have := despawnRecursive_nextId (H := H) (NodeSpan.Fragment l) w w'
  simp only [NodeSpan.despawnRecursive] at this
  exact this h

theorem flatten_shift {H : Type} :
    ∀ (s : NodeSpan) (out : List EntityId), s.flatten out = out ++ s.flatten [] := by
  have _ : H = H := rfl
  exact
    NodeSpan.indPair
      (fun s => ∀ out : List EntityId, s.flatten out = out ++ s.flatten [])
      (fun l => ∀ out : List EntityId,
        NodeSpan.flattenList l out = out ++ NodeSpan.flattenList l [])
      (by intro out; simp [NodeSpan.flatten])
      (by intro e out; simp [NodeSpan.flatten])
      (by intro ns ih out; simpa [NodeSpan.flatten] using ih out)
      (by intro out; simp [NodeSpan.flattenList])
      (by
        intro n ns ihn ihns out
        simp only [NodeSpan.flattenList]
        rw [ihns (n.flatten out), ihn out, ihns (n.flatten []),
          List.append_assoc])

theorem flattenList_shift :
    ∀ (l : List NodeSpan) (out : List EntityId),
      NodeSpan.flattenList l out = out ++ NodeSpan.flattenList l [] := by
  exact
    NodeSpan.indPairList
      (fun s => ∀ out : List EntityId, s.flatten out = out ++ s.flatten [])
      (fun l => ∀ out : List EntityId,
        NodeSpan.flattenList l out = out ++ NodeSpan.flattenList l [])
      (by intro out; simp [NodeSpan.flatten])
      (by intro e out; simp [NodeSpan.flatten])
      (by intro ns ih out; simpa [NodeSpan.flatten] using ih out)
      (by intro out; simp [NodeSpan.flattenList])
      (by
        intro n ns ihn ihns out
        simp only [NodeSpan.flattenList]
        rw [ihns (n.flatten out), ihn out, ihns (n.flatten []),
          List.append_assoc])

theorem despawnRecursive_removes {H : Type} :
    (∀ (s : NodeSpan) (w w' : World H),
      s.despawnRecursive w = .ok w' →
        ∀ e ∈ s.flatten [], e ∉ keys w') := by
  -- after a successful recursive despawn, no leaf of the span is alive
  have notin_keys : ∀ (w : World H) (e : EntityId),
      getEnt w e = none ↔ e ∉ keys w := by
    intro w e; exact lookupEnt_eq_none w.entities e
  have main :=
    NodeSpan.indPair
      (fun s => ∀ (w w' : World H), s.despawnRecursive w = .ok w' →
        ∀ e ∈ s.flatten [], e ∉ keys w')
      (fun l => ∀ (w w' : World H), NodeSpan.despawnRecursiveList l w = .ok w' →
        ∀ e ∈ NodeSpan.flattenList l [], e ∉ keys w')
      (by intro w w' h e he; simp [NodeSpan.flatten] at he)
      (by
        intro e0 w w' h e he
        simp [NodeSpan.flatten] at he
        rw [he]
        simp only [NodeSpan.despawnRecursive] at h
        cases hg : getEnt w e0 with
        | none => rw [hg] at h; exact absurd h (by simp)
        | some r =>
          rw [hg] at h
          simp only [Except.ok.injEq] at h
          subst h
          rw [← notin_keys]
          exact getEnt_despawn_self w e0)
      (by
        intro ns ih w w' h e he
        simp only [NodeSpan.despawnRecursive] at h
        simp only [NodeSpan.flatten] at he
        exact ih w w' h e he)
      (by intro w w' h e he; simp [NodeSpan.flattenList] at he)
      (by
        intro n ns ihn ihns w w' h e he
        simp only [NodeSpan.despawnRecursiveList] at h
        cases hd : n.despawnRecursive w with
        | error m => rw [hd] at h; exact absurd h (by simp)
        | ok w1 =>
          rw [hd] at h
          simp only [NodeSpan.flattenList] at he
          rw [flattenList_shift ns (n.flatten [])] at he
          rcases List.mem_append.mp he with hmem | hmem
          · -- removed by the head despawn, never revived by the tail
            have h1 : e ∉ keys w1 := ihn w w1 hd e hmem
            intro hx
            exact h1 ((despawnRecursiveList_nextId ns w1 w' h).2 e hx)
          · exact ihns w1 w' h e hmem)
  exact main

theorem keys_spawn {H : Type} (w : World H) (r : EntityRec H) :
    keys (spawn w r) = w.nextId :: keys w := by
  simp [keys, spawn]

theorem getEnt_spawn_self {H : Type} (w : World H) (r : EntityRec H) :
    getEnt (spawn w r) w.nextId = some r := by
  simp [getEnt, spawn, lookupEnt]

theorem nextId_not_in_keys {H : Type} (w : World H) (hwf : WorldWF w) :
    w.nextId ∉ keys w := by
  intro hmem
  simp only [keys, List.mem_map] at hmem
  obtain ⟨p, hp, hfst⟩ := hmem
  have hlt := hwf p hp
  rw [hfst] at hlt
  exact lt_irrefl _ hlt

theorem mem_keys_lt_nextId {H : Type} (w : World H) (hwf : WorldWF w)
    (e : EntityId) (he : e ∈ keys w) : e < w.nextId := by
  simp only [keys, List.mem_map] at he
  obtain ⟨p, hp, hfst⟩ := he
  rw [← hfst]
  exact hwf p hp

theorem despawnRecursive_leaves_alive {H : Type} :
    ∀ (s : NodeSpan) (w w' : World H),
      s.despawnRecursive w = .ok w' → ∀ e ∈ s.flatten [], e ∈ keys w := by
  have main :=
    NodeSpan.indPair
      (fun s => ∀ (w w' : World H), s.despawnRecursive w = .ok w' →
        ∀ e ∈ s.flatten [], e ∈ keys w)
      (fun l => ∀ (w w' : World H), NodeSpan.despawnRecursiveList l w = .ok w' →
        ∀ e ∈ NodeSpan.flattenList l [], e ∈ keys w)
      (by intro w w' h e he; simp [NodeSpan.flatten] at he)
      (by
        intro e0 w w' h e he
        simp [NodeSpan.flatten] at he
        rw [he]
        simp only [NodeSpan.despawnRecursive] at h
        cases hg : getEnt w e0 with
        | none => rw [hg] at h; exact absurd h (by simp)
        | some r =>
          have hmem := lookupEnt_isSome_mem w.entities e0 r hg
          exact List.mem_map.mpr ⟨(e0, r), hmem, rfl⟩)
      (by
        intro ns ih w w' h e he
        simp only [NodeSpan.despawnRecursive] at h
        simp only [NodeSpan.flatten] at he
        exact ih w w' h e he)
      (by intro w w' h e he; simp [NodeSpan.flattenList] at he)
      (by
        intro n ns ihn ihns w w' h e he
        simp only [NodeSpan.despawnRecursiveList] at h
        cases hd : n.despawnRecursive w with
        | error m => rw [hd] at h; exact absurd h (by simp)
        | ok w1 =>
          rw [hd] at h
          simp only [NodeSpan.flattenList] at he
          rw [flattenList_shift ns (n.flatten [])] at he
          rcases List.mem_append.mp he with hmem | hmem
          · exact ihn w w1 hd e hmem
          · exact (despawnRecursive_nextId n w w1 hd).2 e
              (ihns w1 w' h e hmem))
  exact main

/-- C3: raze completeness fails on the code.  The raze of the bare
presenter view (`impl View for fn(Cx) -> A`) is `todo!()`: for every
store, state and previous shape it panics and never yields a store, so
no node of `flatten(previous_shape)` is ever removed — in particular at
the failing input `prev = Node 5` with node 5 alive, node 5 survives. -/
theorem claim_C3_fn_presenter_raze_unimplemented :
    (∀ (H : Type) (w : World H) (state : Option EntityId) (prev : NodeSpan),
      fnPresenterRaze w state prev = .error "not yet implemented") ∧
    fnPresenterRaze (H := Unit) ⟨6, [(5, {})], []⟩ (some 1) (.Node 5)
      = .error "not yet implemented" := by
  exact ⟨fun H w state prev => rfl, rfl⟩

/-- C5: for every output shape descriptor `s`, `flatten` appends exactly
`count s` entity ids to its output vector (`flatten(s).len() == count(s)`
generalized to an arbitrary starting vector, as `flatten` appends). -/
theorem claim_C5_flatten_length_eq_count :
    ∀ (s : NodeSpan) (out : List EntityId),
      (s.flatten out).length = out.length + s.count := by
  have main :=
    NodeSpan.indPair
      (fun s => ∀ out : List EntityId,
        (s.flatten out).length = out.length + s.count)
      (fun l => ∀ out : List EntityId,
        (NodeSpan.flattenList l out).length = out.length + NodeSpan.countList l)
      (by intro out; simp [NodeSpan.flatten, NodeSpan.count])
      (by intro e out; simp [NodeSpan.flatten, NodeSpan.count])
      (by intro ns ih out; simpa [NodeSpan.flatten, NodeSpan.count] using ih out)
      (by intro out; simp [NodeSpan.flattenList, NodeSpan.countList])
      (by
        intro n ns ihn ihns out
        simp only [NodeSpan.flattenList, NodeSpan.countList]
        rw [ihns, ihn]
        omega)
  exact main

/-- C4: literal text leaf reuse policy.  If the previous shape is a
single node still carrying a `Text` component, `String::build` mutates
the text in place and returns the same node id without any spawn or
despawn; for any other previous shape, or when the node lacks the text
component, it despawns every node of the previous shape and spawns
exactly one new text node, returning a fresh id. -/
theorem claim_C4_string_build_reuse_policy {H : Type} (s : String) (w : World H) :
    (∀ (te : EntityId) (r : EntityRec H) (t : TextC),
      getEnt w te = some r → r.text = some t →
        stringBuild s w (.Node te)
          = .ok (setEnt w te { r with text := some ⟨[s]⟩ }, .Node te) ∧
        (setEnt w te { r with text := some ⟨[s]⟩ }).nextId = w.nextId ∧
        keys (setEnt w te { r with text := some ⟨[s]⟩ }) = keys w) ∧
    (∀ (prev : NodeSpan) (w1 : World H),
      WorldWF w →
      prev.despawnRecursive w = .ok w1 →
      (∀ te r, prev = .Node te → getEnt w te = some r → r.text = none) →
        stringBuild s w prev = .ok (spawnText w1 s, .Node w.nextId) ∧
        w.nextId ∉ keys w ∧
        (∀ e ∈ prev.flatten [], e ∉ keys (spawnText w1 s))) := by
  constructor
  · intro te r t hget htext
    refine ⟨?_, nextId_setEnt w te _, keys_setEnt w te _⟩
    simp [stringBuild, hget, htext]
  · intro prev w1 hwf hdesp hnotext
    have hnext1 : w1.nextId = w.nextId :=
      (despawnRecursive_nextId prev w w1 hdesp).1
    have hfall0 : stringBuildFallback s w prev
        = .ok (spawnText w1 s, .Node w1.nextId) := by
      rw [stringBuildFallback, hdesp]
    have hfall : stringBuildFallback s w prev
        = .ok (spawnText w1 s, .Node w.nextId) := by
      rw [hfall0, hnext1]
    have hbuild : stringBuild s w prev = .ok (spawnText w1 s, .Node w.nextId) := by
      cases prev with
      | Empty => exact hfall
      | Fragment ns => exact hfall
      | Node te =>
        have hget : ∃ r, getEnt w te = some r := by
          simp only [NodeSpan.despawnRecursive] at hdesp
          cases hg : getEnt w te with
          | none => rw [hg] at hdesp; exact absurd hdesp (by simp)
          | some r => exact ⟨r, rfl⟩
        obtain ⟨r, hg⟩ := hget
        have htext := hnotext te r rfl hg
        rw [show stringBuild s w (.Node te)
              = stringBuildFallback s w (.Node te) by
          simp [stringBuild, hg, htext]]
        exact hfall
    refine ⟨hbuild, nextId_not_in_keys w hwf, ?_⟩
    intro e he
    have hdead : e ∉ keys w1 := despawnRecursive_removes prev w w1 hdesp e he
    have halive : e ∈ keys w := despawnRecursive_leaves_alive prev w w1 hdesp e he
    have hlt : e < w.nextId := mem_keys_lt_nextId w hwf e halive
    rw [spawnText, keys_spawn, hnext1]
    intro hmem
    rcases List.mem_cons.mp hmem with hmem | hmem
    · rw [hmem] at hlt; exact lt_irrefl _ hlt
    · exact hdead hmem

/-- C4 witness: on a store whose node 0 carries text, building "hi"
against `Node 0` rewrites in place; on a store whose node 1 carries no
text, building "hi" against `Node 1` despawns node 1 and spawns the
fresh node 2. -/
theorem claim_C4_string_build_reuse_policy_witness :
    (stringBuild (H := Unit) "hi" ⟨1, [(0, { text := some ⟨["old"]⟩ })], []⟩ (.Node 0)
      = .ok (setEnt ⟨1, [(0, { text := some ⟨["old"]⟩ })], []⟩ 0
          { text := some ⟨["hi"]⟩ }, .Node 0)) ∧
    (stringBuild (H := Unit) "hi" ⟨2, [(1, {})], []⟩ (.Node 1)
      = .ok (spawnText (despawn ⟨2, [(1, {})], []⟩ 1) "hi", .Node 2) ∧
      (∀ e ∈ (NodeSpan.Node 1).flatten [],
        e ∉ keys (spawnText (despawn (⟨2, [(1, {})], []⟩ : World Unit) 1) "hi"))) := by
  constructor
  · exact ((claim_C4_string_build_reuse_policy "hi"
      ⟨1, [(0, { text := some ⟨["old"]⟩ })], []⟩).1 0
      { text := some ⟨["old"]⟩ } ⟨["old"]⟩ rfl rfl).1
  · have h2 := (claim_C4_string_build_reuse_policy (H := Unit) "hi"
      ⟨2, [(1, {})], []⟩).2 (.Node 1) (despawn ⟨2, [(1, {})], []⟩ 1)
      (by
        intro p hp
        simp only [List.mem_singleton] at hp
        rw [hp]; decide)
      (by rfl)
      (by
        intro te r hprev hget
        have hte : te = 1 := by
          cases hprev; rfl
        rw [hte] at hget
        have : r = ({} : EntityRec Unit) := by
          simp [getEnt, lookupEnt] at hget
          exact hget.symm
        rw [this])
    exact ⟨h2.1, h2.2.2⟩

/-- C6: build idempotence for the cited leaf views.  The unit view
always returns `Empty` and an untouched store; a second `String::build`
of the same string against the shape and store produced by a first
build returns a structurally equal shape and performs zero node
creations and destructions (only the in-place text rewrite). -/
theorem claim_C6_build_idempotent {H : Type} :
    (∀ (w : World H) (prev : NodeSpan), unitBuild w prev = (w, .Empty)) ∧
    (∀ (s : String) (w w1 : World H) (prev ns1 : NodeSpan),
      stringBuild s w prev = .ok (w1, ns1) →
        ∃ w2, stringBuild s w1 ns1 = .ok (w2, ns1) ∧
          w2.nextId = w1.nextId ∧ keys w2 = keys w1) := by
  constructor
  · intro w prev; rfl
  · intro s w w1 prev ns1 hbuild
    -- any successful build yields a single node that carries the text [s]
    have hshape : ∃ e r, ns1 = .Node e ∧ getEnt w1 e = some r ∧
        r.text = some ⟨[s]⟩ := by
      cases prev with
      | Node te =>
        cases hg : getEnt w te with
        | none =>
          rw [stringBuild, hg] at hbuild
          exact absurd hbuild (by simp)
        | some r =>
          cases ht : r.text with
          | some t =>
            simp only [stringBuild, hg, ht, Except.ok.injEq, Prod.mk.injEq] at hbuild
            obtain ⟨hw, hn⟩ := hbuild
            refine ⟨te, { r with text := some ⟨[s]⟩ }, hn.symm, ?_, rfl⟩
            rw [← hw]
            exact getEnt_setEnt_self w te r _ hg
          | none =>
            cases hd : NodeSpan.despawnRecursive (.Node te) w with
            | error m =>
              simp only [stringBuild, hg, ht, stringBuildFallback, hd] at hbuild
              exact absurd hbuild (by simp)
            | ok wd =>
              simp only [stringBuild, hg, ht, stringBuildFallback, hd,
                Except.ok.injEq, Prod.mk.injEq] at hbuild
              obtain ⟨hw, hn⟩ := hbuild
              refine ⟨wd.nextId, { text := some ⟨[s]⟩ }, hn.symm, ?_, rfl⟩
              rw [← hw]
              exact getEnt_spawn_self wd _
      | Empty =>
        cases hd : NodeSpan.despawnRecursive NodeSpan.Empty w with
        | error m =>
          simp only [stringBuild, stringBuildFallback, hd] at hbuild
          exact absurd hbuild (by simp)
        | ok wd =>
          simp only [stringBuild, stringBuildFallback, hd,
            Except.ok.injEq, Prod.mk.injEq] at hbuild
          obtain ⟨hw, hn⟩ := hbuild
          refine ⟨wd.nextId, { text := some ⟨[s]⟩ }, hn.symm, ?_, rfl⟩
          rw [← hw]
          exact getEnt_spawn_self wd _
      | Fragment ns =>
        cases hd : NodeSpan.despawnRecursive (NodeSpan.Fragment ns) w with
        | error m =>
          simp only [stringBuild, stringBuildFallback, hd] at hbuild
          exact absurd hbuild (by simp)
        | ok wd =>
          simp only [stringBuild, stringBuildFallback, hd,
            Except.ok.injEq, Prod.mk.injEq] at hbuild
          obtain ⟨hw, hn⟩ := hbuild
          refine ⟨wd.nextId, { text := some ⟨[s]⟩ }, hn.symm, ?_, rfl⟩
          rw [← hw]
          exact getEnt_spawn_self wd _
    obtain ⟨e, r, hns, hget, htext⟩ := hshape
    refine ⟨setEnt w1 e { r with text := some ⟨[s]⟩ }, ?_,
      nextId_setEnt w1 e _, keys_setEnt w1 e _⟩
    rw [hns]
    simp [stringBuild, hget, htext]

/-- C6 witness: build "hi" on an empty store from `Empty`, then rebuild
against the produced shape: the shape is unchanged and no entity is
created or destroyed. -/
theorem claim_C6_build_idempotent_witness :
    unitBuild (H := Unit) ⟨0, [], []⟩ .Empty = (⟨0, [], []⟩, .Empty) ∧
    ∃ w2, stringBuild (H := Unit) "hi" (spawnText ⟨0, [], []⟩ "hi") (.Node 0)
        = .ok (w2, .Node 0) ∧
      w2.nextId = (spawnText (⟨0, [], []⟩ : World Unit) "hi").nextId ∧
      keys w2 = keys (spawnText (⟨0, [], []⟩ : World Unit) "hi") := by
  constructor
  · exact (claim_C6_build_idempotent (H := Unit)).1 ⟨0, [], []⟩ .Empty
  · exact (claim_C6_build_idempotent (H := Unit)).2 "hi" ⟨0, [], []⟩
      (spawnText ⟨0, [], []⟩ "hi") .Empty (.Node 0) (by rfl)

/-- C10: every freshly constructed subtree state holder has cached shape
`Empty`, no cached view and a default-constructed state; consequently
its `count` is 0 and `nodes(prev)` is `Empty` for every `prev`; and
`nodes(prev)` always returns the cached shape, ignoring its argument. -/
theorem claim_C10_view_state_new_invariant (V Props State : Type)
    [Inhabited State] (p : Props → V) (pr : Props) :
    (ViewStateS.new p pr : ViewStateS V Props State).nodes = .Empty ∧
    (ViewStateS.new p pr : ViewStateS V Props State).view = none ∧
    (ViewStateS.new p pr : ViewStateS V Props State).state = default ∧
    (ViewStateS.new p pr : ViewStateS V Props State).count = 0 ∧
    (∀ prev, (ViewStateS.new p pr : ViewStateS V Props State).nodesOf prev
      = .Empty) ∧
    (∀ (vs : ViewStateS V Props State) (prev : NodeSpan),
      vs.nodesOf prev = vs.nodes) :=
  ⟨rfl, rfl, rfl, rfl, fun _ => rfl, fun _ _ => rfl⟩

/-- C7: bundle insertion requires a single node.  Applied to any
`Fragment` shape it signals the programming-error panic, and a build
whose inner view produces a `Fragment` aborts with that panic. -/
theorem claim_C7_insert_bundle_fragment_panics :
    (∀ (H : Type) (bundle : Option Nat) (l : List NodeSpan) (w : World H),
      ViewInsertBundle.insertComponent bundle (.Fragment l) w
        = .error "Can only insert into a singular node") ∧
    (∀ (H σ : Type) (innerBuild : World H → World H × σ)
      (innerNodes : World H → σ → NodeSpan) (bundle : Option Nat)
      (w : World H) (l : List NodeSpan),
      innerNodes (innerBuild w).1 (innerBuild w).2 = .Fragment l →
      ViewInsertBundle.build innerBuild innerNodes bundle w
        = .error "Can only insert into a singular node") := by
  constructor
  · intro H bundle l w; rfl
  · intro H σ innerBuild innerNodes bundle w l hfrag
    simp [ViewInsertBundle.build, hfrag, ViewInsertBundle.insertComponent]

/-- C7 witness: a concrete build whose inner view yields a fragment
aborts with the panic message. -/
theorem claim_C7_insert_bundle_fragment_panics_witness :
    ViewInsertBundle.build (H := Unit) (σ := Unit) (fun w => (w, ()))
        (fun _ _ => .Fragment []) none ⟨0, [], []⟩
      = .error "Can only insert into a singular node" :=
  claim_C7_insert_bundle_fragment_panics.2 Unit Unit (fun w => (w, ()))
    (fun _ _ => .Fragment []) none ⟨0, [], []⟩ [] rfl

theorem insertComponent_preserves_present {H : Type} (c : Nat) :
    (∀ (s : NodeSpan) (w w' : World H),
      ViewInsert.insertComponent c s w = .ok w' →
      ∀ e v, getComp w e = some v → getComp w' e = some v) ∧
    (∀ (l : List NodeSpan) (w w' : World H),
      ViewInsert.insertComponentList c l w = .ok w' →
      ∀ e v, getComp w e = some v → getComp w' e = some v) := by
  have P := fun s : NodeSpan => ∀ w w' : World H,
    ViewInsert.insertComponent c s w = .ok w' →
    ∀ e v, getComp w e = some v → getComp w' e = some v
  have Q := fun l : List NodeSpan => ∀ w w' : World H,
    ViewInsert.insertComponentList c l w = .ok w' →
    ∀ e v, getComp w e = some v → getComp w' e = some v
  have hE : ∀ w w' : World H, ViewInsert.insertComponent c .Empty w = .ok w' →
      ∀ e v, getComp w e = some v → getComp w' e = some v := by
    intro w w' h e v hv
    simp only [ViewInsert.insertComponent, Except.ok.injEq] at h
    rw [← h]; exact hv
  have hN : ∀ e0, ∀ w w' : World H,
      ViewInsert.insertComponent c (.Node e0) w = .ok w' →
      ∀ e v, getComp w e = some v → getComp w' e = some v := by
    intro e0 w w' h e v hv
    cases hg : getEnt w e0 with
    | none => rw [ViewInsert.insertComponent, hg] at h; exact absurd h (by simp)
    | some r =>
      cases hc : r.comp with
      | some c0 =>
        simp only [ViewInsert.insertComponent, hg, hc, Except.ok.injEq] at h
        rw [← h]; exact hv
      | none =>
        simp only [ViewInsert.insertComponent, hg, hc, Except.ok.injEq] at h
        rw [← h]
        by_cases he : e = e0
        · subst he
          rw [show getComp w e = r.comp by simp [getComp, hg], hc] at hv
          exact absurd hv (by simp)
        · simpa [getComp, getEnt_setEnt_other w e0 e _ he] using hv
  have h0 : ∀ w w' : World H, ViewInsert.insertComponentList c [] w = .ok w' →
      ∀ e v, getComp w e = some v → getComp w' e = some v := by
    intro w w' h e v hv
    simp only [ViewInsert.insertComponentList, Except.ok.injEq] at h
    rw [← h]; exact hv
  refine ⟨NodeSpan.indPair _ (fun l => ∀ w w' : World H,
      ViewInsert.insertComponentList c l w = .ok w' →
      ∀ e v, getComp w e = some v → getComp w' e = some v)
      hE hN ?hF h0 ?hC,
    NodeSpan.indPairList (fun s => ∀ w w' : World H,
      ViewInsert.insertComponent c s w = .ok w' →
      ∀ e v, getComp w e = some v → getComp w' e = some v) _
      hE hN ?hF h0 ?hC⟩
  case hF =>
    intro ns ih w w' h e v hv
    simp only [ViewInsert.insertComponent] at h
    exact ih w w' h e v hv
  case hC =>
    intro n ns ihn ihns w w' h e v hv
    simp only [ViewInsert.insertComponentList] at h
    cases hd : ViewInsert.insertComponent c n w with
    | error m => rw [hd] at h; exact absurd h (by simp)
    | ok w1 =>
      rw [hd] at h
      exact ihns w1 w' h e v (ihn w w1 hd e v hv)

theorem insertComponent_outside {H : Type} (c : Nat) :
    (∀ (s : NodeSpan) (w w' : World H),
      ViewInsert.insertComponent c s w = .ok w' →
      ∀ e, e ∉ s.flatten [] → getEnt w' e = getEnt w e) ∧
    (∀ (l : List NodeSpan) (w w' : World H),
      ViewInsert.insertComponentList c l w = .ok w' →
      ∀ e, e ∉ NodeSpan.flattenList l [] → getEnt w' e = getEnt w e) := by
  have hE : ∀ w w' : World H, ViewInsert.insertComponent c .Empty w = .ok w' →
      ∀ e, e ∉ NodeSpan.flatten .Empty [] → getEnt w' e = getEnt w e := by
    intro w w' h e _
    simp only [ViewInsert.insertComponent, Except.ok.injEq] at h
    rw [← h]
  have hN : ∀ e0, ∀ w w' : World H,
      ViewInsert.insertComponent c (.Node e0) w = .ok w' →
      ∀ e, e ∉ NodeSpan.flatten (.Node e0) [] → getEnt w' e = getEnt w e := by
    intro e0 w w' h e hne
    simp only [NodeSpan.flatten, List.nil_append, List.mem_singleton] at hne
    cases hg : getEnt w e0 with
    | none => rw [ViewInsert.insertComponent, hg] at h; exact absurd h (by simp)
    | some r =>
      cases hc : r.comp with
      | some c0 =>
        simp only [ViewInsert.insertComponent, hg, hc, Except.ok.injEq] at h
        rw [← h]
      | none =>
        simp only [ViewInsert.insertComponent, hg, hc, Except.ok.injEq] at h
        rw [← h]
        exact getEnt_setEnt_other w e0 e _ hne
  have h0 : ∀ w w' : World H, ViewInsert.insertComponentList c [] w = .ok w' →
      ∀ e, e ∉ NodeSpan.flattenList [] [] → getEnt w' e = getEnt w e := by
    intro w w' h e _
    simp only [ViewInsert.insertComponentList, Except.ok.injEq] at h
    rw [← h]
  refine ⟨NodeSpan.indPair _ (fun l => ∀ w w' : World H,
      ViewInsert.insertComponentList c l w = .ok w' →
      ∀ e, e ∉ NodeSpan.flattenList l [] → getEnt w' e = getEnt w e)
      hE hN ?hF h0 ?hC,
    NodeSpan.indPairList (fun s => ∀ w w' : World H,
      ViewInsert.insertComponent c s w = .ok w' →
      ∀ e, e ∉ NodeSpan.flatten s [] → getEnt w' e = getEnt w e) _
      hE hN ?hF h0 ?hC⟩
  case hF =>
    intro ns ih w w' h e hne
    simp only [ViewInsert.insertComponent] at h
    simp only [NodeSpan.flatten] at hne
    exact ih w w' h e hne
  case hC =>
    intro n ns ihn ihns w w' h e hne
    simp only [ViewInsert.insertComponentList] at h
    simp only [NodeSpan.flattenList] at hne
    rw [flattenList_shift ns (n.flatten [])] at hne
    simp only [List.mem_append] at hne
    push_neg at hne
    cases hd : ViewInsert.insertComponent c n w with
    | error m => rw [hd] at h; exact absurd h (by simp)
    | ok w1 =>
      rw [hd] at h
      rw [ihns w1 w' h e hne.2, ihn w w1 hd e hne.1]

theorem insertComponent_inserts {H : Type} (c : Nat) :
    (∀ (s : NodeSpan) (w w' : World H),
      ViewInsert.insertComponent c s w = .ok w' →
      ∀ e, e ∈ s.flatten [] → getComp w' e = some ((getComp w e).getD c)) ∧
    (∀ (l : List NodeSpan) (w w' : World H),
      ViewInsert.insertComponentList c l w = .ok w' →
      ∀ e, e ∈ NodeSpan.flattenList l [] →
        getComp w' e = some ((getComp w e).getD c)) := by
  have hE : ∀ w w' : World H, ViewInsert.insertComponent c .Empty w = .ok w' →
      ∀ e, e ∈ NodeSpan.flatten .Empty [] →
        getComp w' e = some ((getComp w e).getD c) := by
    intro w w' _ e he
    simp [NodeSpan.flatten] at he
  have hN : ∀ e0, ∀ w w' : World H,
      ViewInsert.insertComponent c (.Node e0) w = .ok w' →
      ∀ e, e ∈ NodeSpan.flatten (.Node e0) [] →
        getComp w' e = some ((getComp w e).getD c) := by
    intro e0 w w' h e he
    simp only [NodeSpan.flatten, List.nil_append, List.mem_singleton] at he
    subst he
    cases hg : getEnt w e with
    | none => rw [ViewInsert.insertComponent, hg] at h; exact absurd h (by simp)
    | some r =>
      cases hc : r.comp with
      | some c0 =>
        simp only [ViewInsert.insertComponent, hg, hc, Except.ok.injEq] at h
        rw [← h]
        simp [getComp, hg, hc]
      | none =>
        simp only [ViewInsert.insertComponent, hg, hc, Except.ok.injEq] at h
        rw [← h]
        rw [show getComp w e = r.comp by simp [getComp, hg], hc]
        simp [getComp, getEnt_setEnt_self w e r _ hg]
  have h0 : ∀ w w' : World H, ViewInsert.insertComponentList c [] w = .ok w' →
      ∀ e, e ∈ NodeSpan.flattenList [] [] →
        getComp w' e = some ((getComp w e).getD c) := by
    intro w w' _ e he
    simp [NodeSpan.flattenList] at he
  refine ⟨NodeSpan.indPair _ (fun l => ∀ w w' : World H,
      ViewInsert.insertComponentList c l w = .ok w' →
      ∀ e, e ∈ NodeSpan.flattenList l [] →
        getComp w' e = some ((getComp w e).getD c))
      hE hN ?hF h0 ?hC,
    NodeSpan.indPairList (fun s => ∀ w w' : World H,
      ViewInsert.insertComponent c s w = .ok w' →
      ∀ e, e ∈ NodeSpan.flatten s [] →
        getComp w' e = some ((getComp w e).getD c)) _
      hE hN ?hF h0 ?hC⟩
  case hF =>
    intro ns ih w w' h e he
    simp only [ViewInsert.insertComponent] at h
    simp only [NodeSpan.flatten] at he
    exact ih w w' h e he
  case hC =>
    intro n ns ihn ihns w w' h e he
    simp only [ViewInsert.insertComponentList] at h
    simp only [NodeSpan.flattenList] at he
    rw [flattenList_shift ns (n.flatten [])] at he
    cases hd : ViewInsert.insertComponent c n w with
    | error m => rw [hd] at h; exact absurd h (by simp)
    | ok w1 =>
      rw [hd] at h
      by_cases hin : e ∈ n.flatten []
      · have h1 := ihn w w1 hd e hin
        exact (insertComponent_preserves_present c).2 ns w1 w' h e _ h1
      · rcases List.mem_append.mp he with hmem | hmem
        · exact absurd hmem hin
        · have huntouched : getEnt w1 e = getEnt w e :=
            (insertComponent_outside c).1 n w w1 hd e hin
          have h1 := ihns w1 w' h e hmem
          rw [h1]
          rw [show getComp w1 e = getComp w e by simp [getComp, huntouched]]

/-- C8: the insertion combinator is idempotent over the produced leaf
nodes.  A successful `insert_component` leaves every already-present
component value unchanged, touches no entity outside the produced
shape, and gives every leaf node the component — keeping the existing
value when present, inserting `c` only when absent; and
`ViewInsert::build` returns exactly the inner view's shape. -/
theorem claim_C8_view_insert_idempotent {H : Type} (c : Nat) :
    (∀ (innerBuild : World H → Except String (World H × NodeSpan))
      (w w1 w2 : World H) (ns : NodeSpan),
      innerBuild w = .ok (w1, ns) →
      ViewInsert.insertComponent c ns w1 = .ok w2 →
      ViewInsert.build innerBuild c w = .ok (w2, ns)) ∧
    (∀ (ns : NodeSpan) (w w' : World H),
      ViewInsert.insertComponent c ns w = .ok w' →
      (∀ e v, getComp w e = some v → getComp w' e = some v) ∧
      (∀ e, e ∉ ns.flatten [] → getEnt w' e = getEnt w e) ∧
      (∀ e, e ∈ ns.flatten [] →
        getComp w' e = some ((getComp w e).getD c))) := by
  constructor
  · intro innerBuild w w1 w2 ns h1 h2
    simp [ViewInsert.build, h1, h2]
  · intro ns w w' h
    exact ⟨(insertComponent_preserves_present c).1 ns w w' h,
      (insertComponent_outside c).1 ns w w' h,
      (insertComponent_inserts c).1 ns w w' h⟩

/-- C8 witness: inserting component `5` over the fragment
`[Node 0, Node 1]` where node 0 already carries `7` and node 1 carries
nothing keeps `7` on node 0 and inserts `5` on node 1, and the build
returns the inner shape unchanged. -/
theorem claim_C8_view_insert_idempotent_witness :
    getComp (H := Unit)
        (setEnt ⟨2, [(0, { comp := some 7 }), (1, {})], []⟩ 1 { comp := some 5 })
        0 = some 7 ∧
    getComp (H := Unit)
        (setEnt ⟨2, [(0, { comp := some 7 }), (1, {})], []⟩ 1 { comp := some 5 })
        1 = some 5 ∧
    ViewInsert.build (H := Unit)
        (fun w => .ok (w, .Fragment [.Node 0, .Node 1])) 5
        ⟨2, [(0, { comp := some 7 }), (1, {})], []⟩
      = .ok (setEnt ⟨2, [(0, { comp := some 7 }), (1, {})], []⟩ 1
          { comp := some 5 }, .Fragment [.Node 0, .Node 1]) := by
  have h := (claim_C8_view_insert_idempotent (H := Unit) 5).2
    (.Fragment [.Node 0, .Node 1])
    ⟨2, [(0, { comp := some 7 }), (1, {})], []⟩
    (setEnt ⟨2, [(0, { comp := some 7 }), (1, {})], []⟩ 1 { comp := some 5 })
    (by rfl)
  refine ⟨h.1 0 7 rfl, ?_, ?_⟩
  · exact h.2.2 1 (by
      simp [NodeSpan.flatten, NodeSpan.flattenList])
  · exact (claim_C8_view_insert_idempotent (H := Unit) 5).1
      (fun w => .ok (w, .Fragment [.Node 0, .Node 1]))
      ⟨2, [(0, { comp := some 7 }), (1, {})], []⟩
      ⟨2, [(0, { comp := some 7 }), (1, {})], []⟩
      (setEnt ⟨2, [(0, { comp := some 7 }), (1, {})], []⟩ 1 { comp := some 5 })
      (.Fragment [.Node 0, .Node 1]) rfl (by rfl)

/-- C9: for a `Bind` view whose state already records an entity, if that
entity no longer carries a `ViewHandle` component — whether when
fetching the handle or when putting it back after the inner build —
`Bind::build` does not panic: it returns `Empty` and leaves the state's
recorded entity id unchanged. -/
theorem claim_C9_bind_build_missing_handle {H : Type}
    (buildH : H → World H → EntityId → World H × H)
    (nodesH : H → NodeSpan → NodeSpan) (newHandle : H)
    (parent e : EntityId) (prev : NodeSpan) (w : World H) (r : EntityRec H)
    (hr : getEnt w e = some r) :
    (r.viewHandle = none →
      bindBuild buildH nodesH newHandle parent (some e) prev w
        = .ok (w, some e, .Empty)) ∧
    (∀ (h : H) (w2 : World H) (h2 : H) (r2 : EntityRec H),
      r.viewHandle = some ⟨some h⟩ →
      buildH h (setEnt w e { r with viewHandle := some ⟨none⟩ }) e = (w2, h2) →
      getEnt w2 e = some r2 → r2.viewHandle = none →
      bindBuild buildH nodesH newHandle parent (some e) prev w
        = .ok (w2, some e, .Empty)) := by
  constructor
  · intro hvh
    simp [bindBuild, hr, hvh]
  · intro h w2 h2 r2 hvh hb hr2 hvh2
    simp [bindBuild, hr, hvh, hb, hr2, hvh2]

/-- C9 witness: with the recorded entity 0 lacking a `ViewHandle`, build
returns `Empty` with the state intact; and with a holder whose build
wipes the component before the put-back, build again returns `Empty`
with the state intact. -/
theorem claim_C9_bind_build_missing_handle_witness :
    (bindBuild (H := Unit) (fun h w _ => (w, h)) (fun _ _ => .Empty) () 9
        (some 0) .Empty ⟨1, [(0, {})], []⟩
      = .ok (⟨1, [(0, {})], []⟩, some 0, .Empty)) ∧
    (bindBuild (H := Unit) (fun _ _ _ => (⟨1, [(0, {})], []⟩, ()))
        (fun _ _ => .Empty) () 9 (some 0) .Empty
        ⟨1, [(0, { viewHandle := some ⟨some ()⟩ })], []⟩
      = .ok (⟨1, [(0, {})], []⟩, some 0, .Empty)) := by
  constructor
  · exact (claim_C9_bind_build_missing_handle (fun h w _ => (w, h))
      (fun _ _ => .Empty) () 9 0 .Empty ⟨1, [(0, {})], []⟩ {} rfl).1 rfl
  · exact (claim_C9_bind_build_missing_handle (fun _ _ _ => (⟨1, [(0, {})], []⟩, ()))
      (fun _ _ => .Empty) () 9 0 .Empty
      ⟨1, [(0, { viewHandle := some ⟨some ()⟩ })], []⟩
      { viewHandle := some ⟨some ()⟩ } rfl).2 () ⟨1, [(0, {})], []⟩ () {}
      rfl rfl rfl rfl

theorem phase1_mem_iff {H : Type} (w : World H) (e : EntityId) :
    e ∈ phase1 w ↔
      ∃ r, (e, r) ∈ w.entities ∧
        ((∃ data, r.tracked = some data ∧
            data.any (fun x => isChanged w x) = true) ∨ r.added = true) := by
  simp only [phase1, List.mem_append, List.mem_filterMap]
  constructor
  · rintro (⟨p, hp, hf⟩ | ⟨p, hp, hf⟩)
    · obtain ⟨e1, r⟩ := p
      cases ht : r.tracked with
      | none => simp [ht] at hf
      | some data =>
        simp only [ht] at hf
        by_cases hany : data.any (fun x => isChanged w x) = true
        · rw [if_pos hany] at hf
          simp only [Option.some.injEq] at hf
          have he1 : e1 = e := hf
          subst he1
          exact ⟨r, hp, Or.inl ⟨data, ht, hany⟩⟩
        · rw [if_neg hany] at hf; exact absurd hf (by simp)
    · obtain ⟨e1, r⟩ := p
      by_cases hadd : r.added = true
      · simp only [if_pos hadd, Option.some.injEq] at hf
        have he1 : e1 = e := hf
        subst he1
        exact ⟨r, hp, Or.inr hadd⟩
      · simp only [if_neg hadd] at hf
        exact absurd hf (by simp)
  · rintro ⟨r, hmem, ⟨data, ht, hany⟩ | hadd⟩
    · exact Or.inl ⟨(e, r), hmem, by simp [ht, hany]⟩
    · exact Or.inr ⟨(e, r), hmem, by simp [hadd]⟩

theorem phase2_fst_mem {H : Type} :
    ∀ (es : List EntityId) (w : World H) (e : EntityId) (oh : Option H),
      (e, oh) ∈ (phase2 es w).2 → e ∈ es := by
  intro es
  induction es with
  | nil => intro w e oh h; simp [phase2] at h
  | cons e' rest ih =>
    intro w e oh h
    cases hg : getEnt w e' with
    | none =>
      simp only [phase2, hg] at h
      exact List.mem_cons_of_mem _ (ih w e oh h)
    | some r =>
      cases hvr : r.viewRoot with
      | none =>
        simp only [phase2, hg, hvr] at h
        exact List.mem_cons_of_mem _ (ih w e oh h)
      | some vr =>
        simp only [phase2, hg, hvr, List.mem_cons] at h
        rcases h with h | h
        · rw [Prod.mk.injEq] at h
          rw [h.1]
          exact List.mem_cons_self _ _
        · exact List.mem_cons_of_mem _ (ih _ e oh h)

theorem phase2_collects {H : Type} :
    ∀ (es : List EntityId) (w : World H) (e : EntityId) (r : EntityRec H)
      (vr : ViewRootC H),
      e ∈ es → getEnt w e = some r → r.viewRoot = some vr →
        (e, vr.handle) ∈ (phase2 es w).2 := by
  intro es
  induction es with
  | nil => intro w e r vr hmem _ _; simp at hmem
  | cons e' rest ih =>
    intro w e r vr hmem hg hvr
    by_cases he : e' = e
    · subst he
      simp only [phase2, hg, hvr]
      exact List.mem_cons_self _ _
    · have hmem' : e ∈ rest := by
        rcases List.mem_cons.mp hmem with h | h
        · exact absurd h.symm he
        · exact h
      cases hg' : getEnt w e' with
      | none =>
        simp only [phase2, hg']
        exact ih w e r vr hmem' hg hvr
      | some r' =>
        cases hvr' : r'.viewRoot with
        | none =>
          simp only [phase2, hg', hvr']
          exact ih w e r vr hmem' hg hvr
        | some vr' =>
          simp only [phase2, hg', hvr']
          refine List.mem_cons_of_mem _ ?_
          refine ih _ e r vr hmem' ?_ hvr
          rw [getEnt_setEnt_other w e' e _ (fun hh => he hh.symm)]
          exact hg

theorem phase2_keeps_taken {H : Type} :
    ∀ (es : List EntityId) (w : World H) (e : EntityId),
      getViewRoot w e = some ⟨none⟩ →
        getViewRoot (phase2 es w).1 e = some ⟨none⟩ := by
  intro es
  induction es with
  | nil => intro w e h; simpa [phase2] using h
  | cons e' rest ih =>
    intro w e h
    cases hg' : getEnt w e' with
    | none => simp only [phase2, hg']; exact ih w e h
    | some r' =>
      cases hvr' : r'.viewRoot with
      | none => simp only [phase2, hg', hvr']; exact ih w e h
      | some vr' =>
        simp only [phase2, hg', hvr']
        apply ih
        by_cases he : e' = e
        · subst he
          rw [getViewRoot, getEnt_setEnt_self w e' r' _ hg']
        · simp only [getViewRoot,
            getEnt_setEnt_other w e' e _ (fun hh => he hh.symm)]
          simpa [getViewRoot] using h

theorem phase2_leaves_placeholder {H : Type} :
    ∀ (es : List EntityId) (w : World H) (e : EntityId),
      e ∈ es → getViewRoot w e ≠ none →
        getViewRoot (phase2 es w).1 e = some ⟨none⟩ := by
  intro es
  induction es with
  | nil => intro w e hmem _; simp at hmem
  | cons e' rest ih =>
    intro w e hmem hne
    by_cases he : e' = e
    · subst he
      cases hg : getEnt w e' with
      | none => exact absurd (by simp [getViewRoot, hg]) hne
      | some r =>
        cases hvr : r.viewRoot with
        | none => exact absurd (by simp [getViewRoot, hg, hvr]) hne
        | some vr =>
          simp only [phase2, hg, hvr]
          apply phase2_keeps_taken
          simp only [getViewRoot, getEnt_setEnt_self w e' r _ hg]
    · have hmem' : e ∈ rest := by
        rcases List.mem_cons.mp hmem with h | h
        · exact absurd h.symm he
        · exact h
      cases hg' : getEnt w e' with
      | none => simp only [phase2, hg']; exact ih w e hmem' hne
      | some r' =>
        cases hvr' : r'.viewRoot with
        | none => simp only [phase2, hg', hvr']; exact ih w e hmem' hne
        | some vr' =>
          simp only [phase2, hg', hvr']
          apply ih _ e hmem'
          simp only [getViewRoot,
            getEnt_setEnt_other w e' e _ (fun hh => he hh.symm)]
          simpa [getViewRoot] using hne

theorem phase2_pair_some {H : Type} :
    ∀ (es : List EntityId) (w : World H) (e : EntityId) (vr : ViewRootC H)
      (h : H),
      e ∈ es → getViewRoot w e = some vr → vr.handle = some h →
        ∃ h', (e, some h') ∈ (phase2 es w).2 := by
  intro es
  induction es with
  | nil => intro w e vr h hmem _ _; simp at hmem
  | cons e' rest ih =>
    intro w e vr h hmem hvr hh
    by_cases he : e' = e
    · subst he
      cases hg : getEnt w e' with
      | none => rw [getViewRoot, hg] at hvr; exact absurd hvr (by simp)
      | some r =>
        have hvr2 : r.viewRoot = some vr := by
          rw [getViewRoot, hg] at hvr; exact hvr
        simp only [phase2, hg, hvr2]
        exact ⟨h, by rw [← hh]; exact List.mem_cons_self _ _⟩
    · have hmem' : e ∈ rest := by
        rcases List.mem_cons.mp hmem with hx | hx
        · exact absurd hx.symm he
        · exact hx
      cases hg' : getEnt w e' with
      | none => simp only [phase2, hg']; exact ih w e vr h hmem' hvr hh
      | some r' =>
        cases hvr' : r'.viewRoot with
        | none => simp only [phase2, hg', hvr']; exact ih w e vr h hmem' hvr hh
        | some vr'2 =>
          simp only [phase2, hg', hvr']
          obtain ⟨h', hmm⟩ := ih (setEnt w e' { r' with viewRoot := some ⟨none⟩ })
            e vr h hmem' (by
              simp only [getViewRoot,
                getEnt_setEnt_other w e' e _ (fun hh2 => he hh2.symm)]
              simpa [getViewRoot] using hvr) hh
          exact ⟨h', List.mem_cons_of_mem _ hmm⟩

theorem phase3_mem_builds {H : Type}
    (buildH : H → World H → EntityId → World H × H) :
    ∀ (ps : List (EntityId × Option H)) (w : World H) (e : EntityId) (h : H),
      (e, some h) ∈ ps → e ∈ (phase3 buildH ps w).2 := by
  intro ps
  induction ps with
  | nil => intro w e h hmem; simp at hmem
  | cons p rest ih =>
    intro w e h hmem
    obtain ⟨e', oh⟩ := p
    cases oh with
    | none =>
      simp only [phase3]
      rcases List.mem_cons.mp hmem with hx | hx
      · exact absurd hx (by simp)
      · exact ih w e h hx
    | some h' =>
      simp only [phase3, List.mem_cons]
      rcases List.mem_cons.mp hmem with hx | hx
      · rw [Prod.mk.injEq] at hx
        exact Or.inl hx.1
      · exact Or.inr (ih _ e h hx)

theorem phase3_builds_from_pairs {H : Type}
    (buildH : H → World H → EntityId → World H × H) :
    ∀ (ps : List (EntityId × Option H)) (w : World H) (e : EntityId),
      e ∈ (phase3 buildH ps w).2 → ∃ h, (e, some h) ∈ ps := by
  intro ps
  induction ps with
  | nil => intro w e h; simp [phase3] at h
  | cons p rest ih =>
    intro w e hmem
    obtain ⟨e', oh⟩ := p
    cases oh with
    | none =>
      simp only [phase3] at hmem
      obtain ⟨h, hh⟩ := ih w e hmem
      exact ⟨h, List.mem_cons_of_mem _ hh⟩
    | some h' =>
      simp only [phase3, List.mem_cons] at hmem
      rcases hmem with hx | hx
      · exact ⟨h', by rw [hx]; exact List.mem_cons_self _ _⟩
      · obtain ⟨h, hh⟩ := ih _ e hx
        exact ⟨h, List.mem_cons_of_mem _ hh⟩

/-- C1 counterexample: the claim's "for every dirty node the driver
takes the subtree state holder out of the store in a separate pass
(phase 2), calls build on it (phase 3)" fails on the code.  A nested
presenter node (entity 7, spawned by `Bind::build` carrying
`TrackedResources` and a `ViewHandle` holder but no `ViewRoot`) is
dirty — its tracked value 3 changed and phase 1 selects it — yet
phase 2 collects no `(node, holder)` pair at all, the node's holder is
still in place untaken after phase 2, and the cycle invokes no build. -/
theorem claim_C1_counterexample_dirty_without_viewroot :
    7 ∈ phase1 (H := Unit)
        ⟨8, [(7, { tracked := some [3], viewHandle := some ⟨some ()⟩ })], [3]⟩ ∧
    (phase2 (H := Unit)
        (phase1 ⟨8, [(7, { tracked := some [3], viewHandle := some ⟨some ()⟩ })], [3]⟩)
        ⟨8, [(7, { tracked := some [3], viewHandle := some ⟨some ()⟩ })], [3]⟩).2
      = [] ∧
    getEnt (phase2 (H := Unit)
        (phase1 ⟨8, [(7, { tracked := some [3], viewHandle := some ⟨some ()⟩ })], [3]⟩)
        ⟨8, [(7, { tracked := some [3], viewHandle := some ⟨some ()⟩ })], [3]⟩).1 7
      = some { tracked := some [3], viewHandle := some ⟨some ()⟩ } ∧
    (updateViews (H := Unit) (fun h w _ => (w, h))
        ⟨8, [(7, { tracked := some [3], viewHandle := some ⟨some ()⟩ })], [3]⟩).2
      = [] := by
  refine ⟨?_, rfl, rfl, rfl⟩
  decide

/-- C1 (amended): the detach/rebuild/reattach protocol of
`update_views`, for dirty nodes that carry the `ViewRoot` holder
attribute (dirty nested presenter nodes carry only a `ViewHandle` and
are skipped by phase 2).  The cycle is the composition of the three
phases; every selected node that still carries the `ViewRoot` holder
attribute has its `(node, handle)` pair collected by the phase-2 take,
which leaves a `None` placeholder on the node; phase 3 invokes build on
every detached holder with the store and that node; after the build the
same (mutated) holder is reinserted at the same node when the node
still has the attribute; and when the node was destroyed during the
build the holder is dropped — the post-build store is left exactly as
produced by the build, with no re-insertion and no raze — while the
remaining pairs are still processed. -/
theorem claim_C1_driver_three_phase {H : Type}
    (buildH : H → World H → EntityId → World H × H) :
    (∀ (w : World H), updateViews buildH w
      = phase3 buildH (phase2 (phase1 w) w).2 (phase2 (phase1 w) w).1) ∧
    (∀ (w : World H) (es : List EntityId) (e : EntityId) (r : EntityRec H)
      (vr : ViewRootC H),
      e ∈ es → getEnt w e = some r → r.viewRoot = some vr →
        (e, vr.handle) ∈ (phase2 es w).2) ∧
    (∀ (w : World H) (es : List EntityId) (e : EntityId),
      e ∈ es → getViewRoot w e ≠ none →
        getViewRoot (phase2 es w).1 e = some ⟨none⟩) ∧
    (∀ (ps : List (EntityId × Option H)) (w : World H) (e : EntityId) (h : H),
      (e, some h) ∈ ps → e ∈ (phase3 buildH ps w).2) ∧
    (∀ (e : EntityId) (h : H) (rest : List (EntityId × Option H))
      (w : World H) (r2 : EntityRec H) (vr2 : ViewRootC H),
      getEnt (buildH h w e).1 e = some r2 → r2.viewRoot = some vr2 →
        phase3 buildH ((e, some h) :: rest) w
          = ((phase3 buildH rest (setEnt (buildH h w e).1 e
                { r2 with viewRoot := some ⟨some (buildH h w e).2⟩ })).1,
            e :: (phase3 buildH rest (setEnt (buildH h w e).1 e
                { r2 with viewRoot := some ⟨some (buildH h w e).2⟩ })).2)) ∧
    (∀ (e : EntityId) (h : H) (rest : List (EntityId × Option H))
      (w : World H),
      getEnt (buildH h w e).1 e = none →
        phase3 buildH ((e, some h) :: rest) w
          = ((phase3 buildH rest (buildH h w e).1).1,
            e :: (phase3 buildH rest (buildH h w e).1).2)) := by
  refine ⟨fun w => rfl,
    fun w es e r vr hm hg hvr => phase2_collects es w e r vr hm hg hvr,
    fun w es e hm hne => phase2_leaves_placeholder es w e hm hne,
    fun ps w e h hm => phase3_mem_builds buildH ps w e h hm,
    ?_, ?_⟩
  · intro e h rest w r2 vr2 hget hvr
    simp only [phase3, hget, hvr]
  · intro e h rest w hget
    simp only [phase3, hget]

/-- C1 witness: on a store whose node 3 carries a `ViewRoot` with a
present handle, the pair is collected with a placeholder left; the
detached pair is built; a build that leaves node 3 alive gets the holder
reinserted; a build that wipes the store drops the holder and leaves the
post-build store untouched. -/
theorem claim_C1_driver_three_phase_witness :
    ((3, some ()) ∈ (phase2 [3]
        (⟨4, [(3, { viewRoot := some ⟨some ()⟩ })], []⟩ : World Unit)).2) ∧
    (getViewRoot (phase2 [3]
        (⟨4, [(3, { viewRoot := some ⟨some ()⟩ })], []⟩ : World Unit)).1 3
      = some ⟨none⟩) ∧
    (3 ∈ (phase3 (fun (h : Unit) w (_ : EntityId) => (w, h)) [(3, some ())]
        (⟨4, [(3, { viewRoot := some ⟨some ()⟩ })], []⟩ : World Unit)).2) ∧
    (phase3 (H := Unit) (fun h w _ => (w, h)) [(3, some ())]
        ⟨4, [(3, { viewRoot := some ⟨some ()⟩ })], []⟩
      = ((phase3 (fun h w _ => (w, h)) []
            (setEnt (⟨4, [(3, { viewRoot := some ⟨some ()⟩ })], []⟩ : World Unit)
              3 { ({ viewRoot := some ⟨some ()⟩ } : EntityRec Unit) with
                    viewRoot := some ⟨some ()⟩ })).1,
        3 :: (phase3 (fun h w _ => (w, h)) []
            (setEnt (⟨4, [(3, { viewRoot := some ⟨some ()⟩ })], []⟩ : World Unit)
              3 { ({ viewRoot := some ⟨some ()⟩ } : EntityRec Unit) with
                    viewRoot := some ⟨some ()⟩ })).2)) ∧
    (phase3 (H := Unit) (fun _ _ _ => (⟨0, [], []⟩, ())) [(3, some ())]
        ⟨4, [(3, { viewRoot := some ⟨some ()⟩ })], []⟩
      = ((phase3 (fun _ _ _ => (⟨0, [], []⟩, ())) [] (⟨0, [], []⟩ : World Unit)).1,
        3 :: (phase3 (fun _ _ _ => (⟨0, [], []⟩, ())) []
            (⟨0, [], []⟩ : World Unit)).2)) := by
  refine ⟨?_, ?_, ?_, ?_, ?_⟩
  · exact (claim_C1_driver_three_phase (H := Unit) (fun h w _ => (w, h))).2.1
      ⟨4, [(3, { viewRoot := some ⟨some ()⟩ })], []⟩ [3] 3
      { viewRoot := some ⟨some ()⟩ } ⟨some ()⟩ (by simp) rfl rfl
  · exact (claim_C1_driver_three_phase (H := Unit) (fun h w _ => (w, h))).2.2.1
      ⟨4, [(3, { viewRoot := some ⟨some ()⟩ })], []⟩ [3] 3 (by simp)
      (by simp [getViewRoot, getEnt, lookupEnt])
  · exact (claim_C1_driver_three_phase (H := Unit) (fun h w _ => (w, h))).2.2.2.1
      [(3, some ())] ⟨4, [(3, { viewRoot := some ⟨some ()⟩ })], []⟩ 3 ()
      (by simp)
  · exact (claim_C1_driver_three_phase (H := Unit) (fun h w _ => (w, h))).2.2.2.2.1
      3 () [] ⟨4, [(3, { viewRoot := some ⟨some ()⟩ })], []⟩
      { viewRoot := some ⟨some ()⟩ } ⟨some ()⟩ rfl rfl
  · exact (claim_C1_driver_three_phase (H := Unit)
      (fun _ _ _ => (⟨0, [], []⟩, ()))).2.2.2.2.2
      3 () [] ⟨4, [(3, { viewRoot := some ⟨some ()⟩ })], []⟩ rfl

/-- C2 counterexample: a nested presenter node (entity 2) carries a
`TrackedResources` recording only shared value 0 and a `ViewHandle`
(but, being nested, no `ViewRoot`); value 0 changed this cycle, the node
is identified in phase 1, yet the cycle performs no build at all — the
subtree is not rebuilt although its tracked value changed. -/
theorem claim_C2_counterexample :
    isChanged (H := Unit)
        ⟨3, [(2, { tracked := some [0], viewHandle := some ⟨some ()⟩ })], [0]⟩ 0
      = true ∧
    getEnt (H := Unit)
        ⟨3, [(2, { tracked := some [0], viewHandle := some ⟨some ()⟩ })], [0]⟩ 2
      = some { tracked := some [0], viewHandle := some ⟨some ()⟩ } ∧
    2 ∈ phase1 (H := Unit)
        ⟨3, [(2, { tracked := some [0], viewHandle := some ⟨some ()⟩ })], [0]⟩ ∧
    (updateViews (H := Unit) (fun h w _ => (w, h))
        ⟨3, [(2, { tracked := some [0], viewHandle := some ⟨some ()⟩ })], [0]⟩).2
      = [] := by
  refine ⟨rfl, rfl, ?_, rfl⟩
  decide

/-- C2 (amended): dependency gating as implemented.  A node is
identified dirty in phase 1 iff some tracked resource changed or the
node matches `Added<ViewRoot>`; a node none of whose entries is added or
has a changed tracked resource is not rebuilt; and a dirty node that
carries a `ViewRoot` with a present handle is rebuilt.  (Nested
presenter nodes carry only a `ViewHandle`, so the driver identifies but
never rebuilds them.) -/
theorem claim_C2_amended_dependency_gating {H : Type}
    (buildH : H → World H → EntityId → World H × H) :
    (∀ (w : World H) (e : EntityId),
      e ∈ phase1 w ↔ ∃ r, (e, r) ∈ w.entities ∧
        ((∃ data, r.tracked = some data ∧
            data.any (fun x => isChanged w x) = true) ∨ r.added = true)) ∧
    (∀ (w : World H) (e : EntityId),
      (∀ r, (e, r) ∈ w.entities → r.added = false ∧
        ∀ data, r.tracked = some data →
          data.any (fun x => isChanged w x) = false) →
      e ∉ (updateViews buildH w).2) ∧
    (∀ (w : World H) (e : EntityId) (r : EntityRec H) (data : List Nat)
      (A : Nat) (vr : ViewRootC H) (h : H),
      getEnt w e = some r → r.tracked = some data → A ∈ data →
      isChanged w A = true → r.viewRoot = some vr → vr.handle = some h →
      e ∈ (updateViews buildH w).2) := by
  refine ⟨fun w e => phase1_mem_iff w e, ?_, ?_⟩
  · intro w e hquiet hmem
    obtain ⟨h, hpair⟩ := phase3_builds_from_pairs buildH
      (phase2 (phase1 w) w).2 (phase2 (phase1 w) w).1 e hmem
    have hp1 : e ∈ phase1 w := phase2_fst_mem (phase1 w) w e (some h) hpair
    obtain ⟨r, hment, hcond⟩ := (phase1_mem_iff w e).mp hp1
    obtain ⟨hadd, htr⟩ := hquiet r hment
    rcases hcond with ⟨data, ht, hany⟩ | hisadd
    · rw [htr data ht] at hany; exact absurd hany (by simp)
    · rw [hadd] at hisadd; exact absurd hisadd (by simp)
  · intro w e r data A vr h hg ht hA hch hvr hh
    have hp1 : e ∈ phase1 w := by
      refine (phase1_mem_iff w e).mpr
        ⟨r, lookupEnt_isSome_mem w.entities e r hg,
          Or.inl ⟨data, ht, ?_⟩⟩
      rw [List.any_eq_true]
      exact ⟨A, hA, hch⟩
    obtain ⟨h', hpair⟩ := phase2_pair_some (phase1 w) w e vr h hp1
      (by simp only [getViewRoot, hg, hvr]) hh
    exact phase3_mem_builds buildH (phase2 (phase1 w) w).2
      (phase2 (phase1 w) w).1 e h' hpair

/-- C2 amended witness: a root node 4 tracking resource 1, with resource
1 changed, is rebuilt; the same node with no resource changed is not
rebuilt. -/
theorem claim_C2_amended_dependency_gating_witness :
    4 ∈ (updateViews (H := Unit) (fun h w _ => (w, h))
        ⟨5, [(4, { tracked := some [1], viewRoot := some ⟨some ()⟩ })], [1]⟩).2 ∧
    4 ∉ (updateViews (H := Unit) (fun h w _ => (w, h))
        ⟨5, [(4, { tracked := some [1], viewRoot := some ⟨some ()⟩ })], []⟩).2 := by
  constructor
  · exact (claim_C2_amended_dependency_gating (H := Unit)
      (fun h w _ => (w, h))).2.2
      ⟨5, [(4, { tracked := some [1], viewRoot := some ⟨some ()⟩ })], [1]⟩ 4
      { tracked := some [1], viewRoot := some ⟨some ()⟩ } [1] 1 ⟨some ()⟩ ()
      rfl rfl (by decide) rfl rfl rfl
  · exact (claim_C2_amended_dependency_gating (H := Unit)
      (fun h w _ => (w, h))).2.1
      ⟨5, [(4, { tracked := some [1], viewRoot := some ⟨some ()⟩ })], []⟩ 4
      (by
        intro r hmem
        simp only [List.mem_singleton, Prod.mk.injEq] at hmem
        rw [hmem.2]
        exact ⟨rfl, by
          intro data hdata
          simp only [Option.some.injEq] at hdata
          rw [← hdata]
          rfl⟩)

end Quill
